import Mathlib

/-!
Verification development for the StrategyBacktester repository.

The repository contains two near-duplicate scripts: `main.py` (FastAPI
endpoint `ma_crossover_backtest`) and `streamlit_app.py` (`run_backtest`
plus a module-level trade-simulation loop).  We embed the algorithmic
core shallowly:

* prices are rationals (`ℚ`), timestamps are abstract `Nat` keys;
* the pandas frame after `dropna` is a `List Row`;
* `rolling(window=w).mean()` becomes `sma`, `ewm(span=w, adjust=False).mean()`
  becomes `ema`;
* the two crossover-detection `for` loops become `crossoversApi`
  (main.py, separate `curr_signal == 1` / `curr_signal == -1` branches)
  and `crossoversApp` (streamlit_app.py, combined branch);
* the module-level trade-simulation loop of streamlit_app.py becomes
  `simStep` folded by `simulate`.

Data fetching, timezone conversion and the UI are external collaborators
and are not part of the embedded core.
-/

namespace NQBacktest

/-- One price bar: timestamp key, `Open` and `Close` columns. -/
structure Bar where
  ts : Nat
  bopen : ℚ
  bclose : ℚ
deriving DecidableEq, Repr

/-- One row of the data frame after the moving averages have been computed
and rows with undefined averages dropped (`dropna`): timestamp, `Open`,
`Close`, `ma_20`, `ma_50` and the derived `signal` column. -/
structure Row where
  ts : Nat
  ropen : ℚ
  rclose : ℚ
  ma20 : ℚ
  ma50 : ℚ
  signal : Int
deriving DecidableEq, Repr

/-- Trade direction, the `"long"` / `"short"` strings of the source. -/
inductive Dir where
  | long : Dir
  | short : Dir
deriving DecidableEq, Repr

/-- A crossover event as built by both detection loops. -/
structure CrossoverEvent where
  entry_time : Nat
  ctype : Dir
  ma20 : ℚ
  ma50 : ℚ
  entry_open : ℚ
  prev_close : ℚ
deriving DecidableEq, Repr

/-- `df['Close'].rolling(window=w).mean()`: at index `i` the mean of the
`w` closes ending at `i`, undefined (`none`) while fewer than `w`
observations are available. -/
def sma (w : Nat) (closes : List ℚ) : List (Option ℚ) :=
  (List.range closes.length).map fun i =>
    if w ≤ i + 1 ∧ 1 ≤ w then
      some ((((closes.drop (i + 1 - w)).take w).sum) / (w : ℚ))
    else none

/-- The tail of `ewm(adjust=False)`: given the previous EMA value, emit
`α * close + (1 - α) * prev` for each close. -/
def emaFrom (a : ℚ) (prev : ℚ) : List ℚ → List ℚ
  | [] => []
  | c :: rest =>
    let e := a * c + (1 - a) * prev
    e :: emaFrom a e rest

/-- `df['Close'].ewm(span=w, adjust=False).mean()`: seeded with the first
close, recurrence `ema[i] = α * close[i] + (1 - α) * ema[i-1]` with
`α = 2 / (w + 1)`. -/
def ema (w : Nat) (closes : List ℚ) : List ℚ :=
  match closes with
  | [] => []
  | c :: rest => c :: emaFrom (2 / ((w : ℚ) + 1)) c rest

/-- The crossover-detection loop of `main.py` (lines 110-132):
`for i in range(1, len(df) - 1)`, with separate branches for
`curr_signal == 1` and `curr_signal == -1`. -/
def crossoversApi (df : List Row) : List CrossoverEvent :=
  (List.range' 1 (df.length - 2)).filterMap fun i =>
    match df[i - 1]?, df[i]?, df[i + 1]? with
    | some prev, some curr, some next =>
      if prev.signal ≠ curr.signal then
        if curr.signal = 1 then
          some ⟨next.ts, Dir.long, curr.ma20, curr.ma50, next.ropen, curr.rclose⟩
        else if curr.signal = -1 then
          some ⟨next.ts, Dir.short, curr.ma20, curr.ma50, next.ropen, curr.rclose⟩
        else none
      else none
    | _, _, _ => none

/-- The crossover-detection loop of `streamlit_app.py` (lines 83-96):
same iteration, but a combined branch
`if curr_signal == 1 or curr_signal == -1`. -/
def crossoversApp (df : List Row) : List CrossoverEvent :=
  (List.range' 1 (df.length - 2)).filterMap fun i =>
    match df[i - 1]?, df[i]?, df[i + 1]? with
    | some prev, some curr, some next =>
      if prev.signal ≠ curr.signal ∧ (curr.signal = 1 ∨ curr.signal = -1) then
        some ⟨next.ts, if curr.signal = 1 then Dir.long else Dir.short,
              curr.ma20, curr.ma50, next.ropen, curr.rclose⟩
      else none
    | _, _, _ => none

/-- Exit reason, the `"TP"` / `"SL"` strings of the source. -/
inductive ExitReason where
  | TP : ExitReason
  | SL : ExitReason
deriving DecidableEq, Repr

/-- One row of the `trades` list built by the simulation loop. -/
structure Trade where
  entry_time : Nat
  exit_time : Nat
  entry_price : ℚ
  exit_price : ℚ
  direction : Dir
  result : ExitReason
  pnl : ℚ
deriving DecidableEq, Repr

/-- The mutable state of the module-level simulation loop:
`account`, `trades` and `pnl_curve`. -/
structure SimState where
  account : ℚ
  trades : List Trade
  pnl_curve : List ℚ
deriving DecidableEq, Repr

/-- `entry_time not in df.index` test together with
`df.loc[entry_time]` / `df.index.get_loc(entry_time)`: find the first bar
whose timestamp matches, returning its position and the bar. -/
def lookupBar : List Bar → Nat → Option (Nat × Bar)
  | [], _ => none
  | b :: rest, t =>
    if b.ts = t then some (0, b)
    else (lookupBar rest t).map fun p => (p.1 + 1, p.2)

/-- Line 137 of `streamlit_app.py`:
`position = -1 if (type == "long" and inverse) or (type == "short" and not inverse) else 1`. -/
def position (inverse : Bool) (d : Dir) : Int :=
  if (d = Dir.long ∧ inverse) ∨ (d = Dir.short ∧ ¬inverse) then -1 else 1

/-- The forward exit scan (lines 140-151): walk the bars strictly after
the entry bar; `price_move = close - entry` for `position == 1`, else
`entry - close`; exit with `TP` at `entry ± take_profit` when
`price_move >= take_profit`, else with `SL` at `entry ∓ stop_loss` when
`price_move <= -stop_loss`.  Returns the exit bar timestamp, the exit
price and the reason, or `none` when the series ends first. -/
def scanExit (entry : ℚ) (pos : Int) (sl tp : ℚ) :
    List Bar → Option (Nat × ℚ × ExitReason)
  | [] => none
  | b :: rest =>
    let move : ℚ := if pos = 1 then b.bclose - entry else entry - b.bclose
    if tp ≤ move then
      some (b.ts, (if pos = 1 then entry + tp else entry - tp), ExitReason.TP)
    else if move ≤ -sl then
      some (b.ts, (if pos = 1 then entry - sl else entry + sl), ExitReason.SL)
    else scanExit entry pos sl tp rest

/-- The per-event part of one iteration of `for cross in crossovers`
(lines 132-154): resolve the entry bar (`continue` when the timestamp is
absent), take that bar's open as `entry_price`, compute `position`,
scan forward for an exit; when a definite exit exists, produce the row
the loop appends to `trades`, including its `pnl`
(`(exit_price - entry_price) * contract_multiplier` for `position == 1`,
the negation otherwise); `none` when the loop `continue`s. -/
def tradeOf (bars : List Bar) (inverse : Bool) (sl tp mult : ℚ)
    (cross : CrossoverEvent) : Option Trade :=
  match lookupBar bars cross.entry_time with
  | none => none
  | some (loc, entryBar) =>
    let entry_price := entryBar.bopen
    let pos := position inverse cross.ctype
    match scanExit entry_price pos sl tp (bars.drop (loc + 1)) with
    | none => none
    | some (exit_time, exit_price, reason) =>
      some ⟨cross.entry_time, exit_time, entry_price, exit_price,
            (if pos = 1 then Dir.long else Dir.short), reason,
            if pos = 1 then (exit_price - entry_price) * mult
            else (entry_price - exit_price) * mult⟩

/-- The state update of one loop iteration (lines 155-165): when the event
resolves to a trade, `account += pnl`, append the trade and append the new
account value to `pnl_curve`; otherwise the iteration leaves the loop
state untouched. -/
def simStep (bars : List Bar) (inverse : Bool) (sl tp mult : ℚ)
    (s : SimState) (cross : CrossoverEvent) : SimState :=
  match tradeOf bars inverse sl tp mult cross with
  | none => s
  | some tr =>
    { account := s.account + tr.pnl
      trades := s.trades ++ [tr]
      pnl_curve := s.pnl_curve ++ [s.account + tr.pnl] }

/-- The whole module-level simulation loop: fold `simStep` over the
crossover events, starting from the initial account balance with empty
trades and pnl curve. -/
def simulate (bars : List Bar) (events : List CrossoverEvent)
    (inverse : Bool) (sl tp bal mult : ℚ) : SimState :=
  events.foldl (simStep bars inverse sl tp mult) ⟨bal, [], []⟩

/-- The end-to-end pipeline on one bar series, as `run_backtest` followed
by the simulation loop: compute both SMAs over the closes, drop warm-up
rows, derive the signal column, detect crossovers, and simulate them
against the filtered bar series. -/
def buildFrame (bars : List Bar) (w1 w2 : Nat) : List Row :=
  let closes := bars.map Bar.bclose
  let m1 := sma w1 closes
  let m2 := sma w2 closes
  (List.range bars.length).filterMap fun i =>
    match bars[i]?, m1.getD i none, m2.getD i none with
    | some b, some f, some s =>
      some ⟨b.ts, b.bopen, b.bclose, f, s,
            if f > s then 1 else if f < s then -1 else 0⟩
    | _, _, _ => none

/-- SMA pipeline: frame build, crossover detection (streamlit variant)
and trade simulation over the filtered bars. -/
def pipeline (bars : List Bar) (w1 w2 : Nat) (inverse : Bool)
    (sl tp bal mult : ℚ) : SimState :=
  let df := buildFrame bars w1 w2
  let events := crossoversApp df
  simulate (df.map fun r => ⟨r.ts, r.ropen, r.rclose⟩) events inverse sl tp bal mult

/-- Flip a trade direction (`long ↔ short`). -/
def flipDir : Dir → Dir
  | Dir.long => Dir.short
  | Dir.short => Dir.long

/-- Swap an exit reason (`TP ↔ SL`). -/
def swapReason : ExitReason → ExitReason
  | ExitReason.TP => ExitReason.SL
  | ExitReason.SL => ExitReason.TP

/-- The mirror of a trade under strategy inversion: direction flipped,
exit reason swapped, pnl negated; entry and exit data unchanged. -/
def flipTrade (t : Trade) : Trade :=
  { t with direction := flipDir t.direction
           result := swapReason t.result
           pnl := -t.pnl }

/-- The bar series of the spec's SMA scenario:
closes 100, 105, 160, 103 and opens 100, 101, 102, 103. -/
def scenarioBars : List Bar :=
  [⟨0, 100, 100⟩, ⟨1, 101, 105⟩, ⟨2, 102, 160⟩, ⟨3, 103, 103⟩]

/-- A two-bar series whose second close rises 100 points. -/
def risingBars : List Bar := [⟨0, 100, 100⟩, ⟨1, 101, 200⟩]

/-- A two-bar series whose second close falls 50 points. -/
def fallingBars : List Bar := [⟨0, 100, 100⟩, ⟨1, 101, 50⟩]

/-- A two-bar series whose second close rises a single point. -/
def quietBars : List Bar := [⟨0, 100, 100⟩, ⟨1, 101, 101⟩]

/-- A single long crossover event entering at timestamp 0. -/
def longEvent : CrossoverEvent := ⟨0, Dir.long, 0, 0, 100, 100⟩

/-- The trade the simulator records for `longEvent` over `risingBars`
with `sl = tp = 50` and multiplier 1. -/
def tradeTP50 : Trade := ⟨0, 1, 100, 150, Dir.long, ExitReason.TP, 50⟩

/-- The trade the simulator records for `longEvent` over `risingBars`
with `sl = 50`, `tp = 100` and multiplier 20. -/
def tradeTP100 : Trade := ⟨0, 1, 100, 200, Dir.long, ExitReason.TP, 2000⟩

/-- The frame the code computes on `scenarioBars` with fast SMA window 1
and slow SMA window 2: the warm-up row t0 is dropped, the three remaining
rows carry signals 1, 1, -1. -/
def scenarioRows : List Row :=
  [⟨1, 101, 105, 105, 205 / 2, 1⟩,
   ⟨2, 102, 160, 160, 265 / 2, 1⟩,
   ⟨3, 103, 103, 103, 263 / 2, -1⟩]

/-- A default row, used only to state positional access in theorem
statements. -/
def rowDefault : Row := ⟨0, 0, 0, 0, 0, 0⟩

lemma emaFrom_length (a prev : ℚ) (cs : List ℚ) :
    (emaFrom a prev cs).length = cs.length := by
  induction cs generalizing prev with
  | nil => rfl
  | cons c rest ih => simp [emaFrom, ih]

lemma emaFrom_getD (a : ℚ) (cs : List ℚ) :
    ∀ (prev : ℚ) (j : Nat), j < cs.length →
      (emaFrom a prev cs).getD j 0
        = a * cs.getD j 0 + (1 - a) * ((prev :: emaFrom a prev cs).getD j 0) := by
  induction cs with
  | nil => intro prev j hj; simp at hj
  | cons c rest ih =>
    intro prev j hj
    cases j with
    | zero => simp [emaFrom]
    | succ j =>
      have hj' : j < rest.length := by simpa using hj
      have h := ih (a * c + (1 - a) * prev) j hj'
      simpa [emaFrom] using h

/-- C6: for every nonempty close series and window `w ≥ 1`, the EMA is
defined at every index (its length equals the input length), equals
`close[0]` at index 0, and satisfies
`ema[i] = α * close[i] + (1 - α) * ema[i-1]` with `α = 2 / (w + 1)` for
every `i ≥ 1` (no bias correction). -/
theorem ema_spec (w : Nat) (closes : List ℚ) (hw : 1 ≤ w) (hne : closes ≠ []) :
    (ema w closes).length = closes.length
    ∧ (ema w closes).getD 0 0 = closes.getD 0 0
    ∧ ∀ i, 1 ≤ i → i < closes.length →
        (ema w closes).getD i 0
          = (2 / ((w : ℚ) + 1)) * closes.getD i 0
            + (1 - 2 / ((w : ℚ) + 1)) * (ema w closes).getD (i - 1) 0 := by
  match closes with
  | [] => exact absurd rfl hne
  | c :: rest =>
    refine ⟨by simp [ema, emaFrom_length], by simp [ema], ?_⟩
    intro i h1 h2
    match i, h1 with
    | i + 1, _ =>
      have hj : i < rest.length := by simpa using h2
      have h := emaFrom_getD (2 / ((w : ℚ) + 1)) rest c i hj
      simpa [ema] using h

/-- Witness for `ema_spec` at `w = 1`, `closes = [1, 2]`. -/
theorem ema_spec_witness :
    (ema 1 [(1 : ℚ), 2]).length = ([(1 : ℚ), 2]).length
    ∧ (ema 1 [(1 : ℚ), 2]).getD 0 0 = ([(1 : ℚ), 2]).getD 0 0
    ∧ ∀ i, 1 ≤ i → i < ([(1 : ℚ), 2]).length →
        (ema 1 [(1 : ℚ), 2]).getD i 0
          = (2 / (((1 : ℕ) : ℚ) + 1)) * ([(1 : ℚ), 2]).getD i 0
            + (1 - 2 / (((1 : ℕ) : ℚ) + 1)) * (ema 1 [(1 : ℚ), 2]).getD (i - 1) 0 :=
  ema_spec 1 [1, 2] (by decide) (by decide)

/-- C8: an event whose entry timestamp is absent from the bar series is
skipped silently: no trade is recorded and the whole simulation state
(account balance, trades, equity curve) is unchanged by that event. -/
theorem simStep_missing_entry (bars : List Bar) (inverse : Bool)
    (sl tp mult : ℚ) (s : SimState) (e : CrossoverEvent)
    (h : lookupBar bars e.entry_time = none) :
    simStep bars inverse sl tp mult s e = s := by
  unfold simStep tradeOf
  rw [h]

/-- Witness for `simStep_missing_entry`: timestamp 7 is not in the series. -/
theorem simStep_missing_entry_witness :
    simStep quietBars false 50 100 20 ⟨10000, [], []⟩ ⟨7, Dir.long, 0, 0, 0, 0⟩
      = ⟨10000, [], []⟩ :=
  simStep_missing_entry quietBars false 50 100 20 ⟨10000, [], []⟩
    ⟨7, Dir.long, 0, 0, 0, 0⟩ (by decide)

/-- C7: when every event's forward scan reaches the end of the series
without the favorable move reaching `take_profit` or falling to
`-stop_loss`, no trade is recorded and no equity entry is appended: the
simulation returns the starting balance with an empty trade list and an
empty equity curve, a valid non-error result. -/
theorem simulate_no_exit (bars : List Bar) (events : List CrossoverEvent)
    (inverse : Bool) (sl tp bal mult : ℚ)
    (h : ∀ e ∈ events, ∀ loc b, lookupBar bars e.entry_time = some (loc, b) →
        scanExit b.bopen (position inverse e.ctype) sl tp (bars.drop (loc + 1)) = none) :
    simulate bars events inverse sl tp bal mult = ⟨bal, [], []⟩ := by
  revert h
  unfold simulate
  induction events with
  | nil => intro h; rfl
  | cons e rest ih =>
    intro h
    have hstep : simStep bars inverse sl tp mult ⟨bal, [], []⟩ e = ⟨bal, [], []⟩ := by
      unfold simStep tradeOf
      cases hlb : lookupBar bars e.entry_time with
      | none => rfl
      | some p =>
        obtain ⟨loc, b⟩ := p
        have hscan := h e (List.mem_cons_self e rest) loc b hlb
        simp [hscan]
    rw [List.foldl_cons, hstep]
    exact ih fun e' he' loc b hlb => h e' (List.mem_cons_of_mem e he') loc b hlb

/-- Witness for `simulate_no_exit`: one event, thresholds never reached. -/
theorem simulate_no_exit_witness :
    simulate quietBars [longEvent] false 50 50 10000 1 = ⟨10000, [], []⟩ := by
  apply simulate_no_exit
  intro e he loc b hlb
  simp only [List.mem_singleton] at he
  subst he
  have h0 : lookupBar quietBars longEvent.entry_time
      = some (0, (⟨0, 100, 100⟩ : Bar)) := by decide
  rw [h0] at hlb
  simp only [Option.some.injEq, Prod.mk.injEq] at hlb
  obtain ⟨h1, h2⟩ := hlb
  subst h1
  subst h2
  with_unfolding_all decide

/-- C5: within the forward exit scan, take-profit is checked before
stop-loss: if the scan reaches a bar (no earlier scanned bar triggered
either threshold) whose favorable move simultaneously satisfies both
`move ≥ take_profit` and `move ≤ -stop_loss`, the trade exits at that bar
with reason `TP` and the take-profit exit price. -/
theorem scanExit_tp_first (entry : ℚ) (pos : Int) (sl tp : ℚ)
    (pre : List Bar) (b : Bar) (rest : List Bar)
    (hpre : ∀ b' ∈ pre,
      ¬ tp ≤ (if pos = 1 then b'.bclose - entry else entry - b'.bclose)
      ∧ ¬ (if pos = 1 then b'.bclose - entry else entry - b'.bclose) ≤ -sl)
    (htp : tp ≤ (if pos = 1 then b.bclose - entry else entry - b.bclose))
    (hsl : (if pos = 1 then b.bclose - entry else entry - b.bclose) ≤ -sl) :
    scanExit entry pos sl tp (pre ++ b :: rest)
      = some (b.ts, (if pos = 1 then entry + tp else entry - tp), ExitReason.TP) := by
  induction pre with
  | nil =>
    simp only [List.nil_append, scanExit]
    rw [if_pos htp]
  | cons p ps ih =>
    have hp := hpre p (List.mem_cons_self p ps)
    simp only [List.cons_append, scanExit]
    rw [if_neg hp.1, if_neg hp.2]
    exact ih fun b' hb' => hpre b' (List.mem_cons_of_mem p hb')

/-- Witness for `scanExit_tp_first` with both thresholds met at once
(possible only for degenerate threshold values, here `sl = tp = 0`). -/
theorem scanExit_tp_first_witness :
    scanExit 0 1 0 0 ([] ++ (⟨5, 0, 0⟩ : Bar) :: [])
      = some (5, (if (1 : Int) = 1 then (0 : ℚ) + 0 else 0 - 0), ExitReason.TP) :=
  scanExit_tp_first 0 1 0 0 [] ⟨5, 0, 0⟩ [] (by simp)
    (by norm_num) (by norm_num)

/-- C10: the crossover-detection loop of main.py (separate branches for
`curr_signal == 1` and `curr_signal == -1`) and the one of
streamlit_app.py (combined branch) produce identical event lists on every
frame whose signal values lie in `{-1, 0, 1}`. -/
theorem crossovers_agree (df : List Row)
    (h : ∀ r ∈ df, r.signal = 1 ∨ r.signal = 0 ∨ r.signal = -1) :
    crossoversApi df = crossoversApp df := by
  unfold crossoversApi crossoversApp
  refine List.filterMap_congr fun i hi => ?_
  cases h1 : df[i - 1]? with
  | none => rfl
  | some prev =>
    cases h2 : df[i]? with
    | none => rfl
    | some curr =>
      cases h3 : df[i + 1]? with
      | none => rfl
      | some next =>
        by_cases hne : prev.signal = curr.signal
        · simp [hne]
        · by_cases hc1 : curr.signal = 1
          · simp [hne, hc1]
          · by_cases hc2 : curr.signal = -1
            · simp [hne, hc1, hc2]
            · simp [hne, hc1, hc2]

/-- Witness for `crossovers_agree` on a three-row frame with signals
0, 1, -1. -/
theorem crossovers_agree_witness :
    crossoversApi
        [⟨0, 100, 100, 1, 1, 0⟩, ⟨1, 101, 105, 2, 1, 1⟩, ⟨2, 102, 103, 1, 2, -1⟩]
      = crossoversApp
        [⟨0, 100, 100, 1, 1, 0⟩, ⟨1, 101, 105, 2, 1, 1⟩, ⟨2, 102, 103, 1, 2, -1⟩] :=
  crossovers_agree
    [⟨0, 100, 100, 1, 1, 0⟩, ⟨1, 101, 105, 2, 1, 1⟩, ⟨2, 102, 103, 1, 2, -1⟩]
    (by decide)

lemma scanExit_price (entry : ℚ) (pos : Int) (sl tp : ℚ) :
    ∀ (bs : List Bar) (t : Nat) (p : ℚ) (r : ExitReason),
      scanExit entry pos sl tp bs = some (t, p, r) →
      (r = ExitReason.TP → p = (if pos = 1 then entry + tp else entry - tp))
      ∧ (r = ExitReason.SL → p = (if pos = 1 then entry - sl else entry + sl)) := by
  intro bs
  induction bs with
  | nil => intro t p r h; exact absurd h (by simp [scanExit])
  | cons b rest ih =>
    intro t p r h
    simp only [scanExit] at h
    by_cases hc1 : tp ≤ (if pos = 1 then b.bclose - entry else entry - b.bclose)
    · rw [if_pos hc1] at h
      simp only [Option.some.injEq, Prod.mk.injEq] at h
      obtain ⟨-, hp, hr⟩ := h
      subst hr
      exact ⟨fun _ => hp.symm, fun hc => nomatch hc⟩
    · rw [if_neg hc1] at h
      by_cases hc2 : (if pos = 1 then b.bclose - entry else entry - b.bclose) ≤ -sl
      · rw [if_pos hc2] at h
        simp only [Option.some.injEq, Prod.mk.injEq] at h
        obtain ⟨-, hp, hr⟩ := h
        subst hr
        exact ⟨fun hc => ExitReason.noConfusion hc, fun _ => hp.symm⟩
      · rw [if_neg hc2] at h
        exact ih t p r h

lemma foldl_simStep_trades (bars : List Bar) (inverse : Bool) (sl tp mult : ℚ)
    (P : Trade → Prop)
    (hnew : ∀ e tr, tradeOf bars inverse sl tp mult e = some tr → P tr) :
    ∀ (events : List CrossoverEvent) (s : SimState),
      (∀ tr ∈ s.trades, P tr) →
      ∀ tr ∈ (events.foldl (simStep bars inverse sl tp mult) s).trades, P tr := by
  intro events
  induction events with
  | nil => intro s hs tr htr; exact hs tr htr
  | cons e rest ih =>
    intro s hs tr htr
    refine ih _ ?_ tr htr
    intro tr' htr'
    unfold simStep at htr'
    cases hto : tradeOf bars inverse sl tp mult e with
    | none => rw [hto] at htr'; exact hs tr' htr'
    | some tnew =>
      rw [hto] at htr'
      simp only [List.mem_append, List.mem_singleton] at htr'
      rcases htr' with h | h
      · exact hs tr' h
      · rw [h]; exact hnew e tnew hto

lemma tradeOf_pnl (bars : List Bar) (inverse : Bool) (sl tp mult : ℚ)
    (e : CrossoverEvent) (tr : Trade)
    (h : tradeOf bars inverse sl tp mult e = some tr) :
    tr.pnl = (match tr.result with
              | ExitReason.TP => tp * mult
              | ExitReason.SL => -(sl * mult)) := by
  unfold tradeOf at h
  cases hlb : lookupBar bars e.entry_time with
  | none => rw [hlb] at h; simp at h
  | some q =>
    obtain ⟨loc, b⟩ := q
    rw [hlb] at h
    dsimp only at h
    cases hse : scanExit b.bopen (position inverse e.ctype) sl tp (bars.drop (loc + 1)) with
    | none => rw [hse] at h; simp at h
    | some x =>
      obtain ⟨t, p', r⟩ := x
      rw [hse] at h
      dsimp only at h
      have hp := scanExit_price b.bopen (position inverse e.ctype) sl tp
        (bars.drop (loc + 1)) t p' r hse
      simp only [Option.some.injEq] at h
      subst h
      cases r with
      | TP =>
        have hp' := hp.1 rfl
        show (if position inverse e.ctype = 1
              then (p' - b.bopen) * mult else (b.bopen - p') * mult) = tp * mult
        rw [hp']
        by_cases hpos : position inverse e.ctype = 1
        · rw [if_pos hpos, if_pos hpos]; ring
        · rw [if_neg hpos, if_neg hpos]; ring
      | SL =>
        have hp' := hp.2 rfl
        show (if position inverse e.ctype = 1
              then (p' - b.bopen) * mult else (b.bopen - p') * mult) = -(sl * mult)
        rw [hp']
        by_cases hpos : position inverse e.ctype = 1
        · rw [if_pos hpos, if_pos hpos]; ring
        · rw [if_neg hpos, if_neg hpos]; ring

lemma simulate_trades_pnl (bars : List Bar) (events : List CrossoverEvent)
    (inverse : Bool) (sl tp bal mult : ℚ) :
    ∀ tr ∈ (simulate bars events inverse sl tp bal mult).trades,
      tr.pnl = (match tr.result with
                | ExitReason.TP => tp * mult
                | ExitReason.SL => -(sl * mult)) :=
  foldl_simStep_trades bars inverse sl tp mult _
    (fun e tr h => tradeOf_pnl bars inverse sl tp mult e tr h)
    events ⟨bal, [], []⟩ (by simp)

/-- C3: every recorded trade's pnl has magnitude exactly
`take_profit_points * contract_multiplier` on a `TP` exit and exactly
`stop_loss_points * contract_multiplier` on an `SL` exit; since `TP` and
`SL` are the only exit reasons, no other magnitudes occur. -/
theorem trades_pnl_magnitude (bars : List Bar) (events : List CrossoverEvent)
    (inverse : Bool) (sl tp bal mult : ℚ)
    (hsl : 0 ≤ sl) (htp : 0 ≤ tp) (hm : 0 ≤ mult) :
    ∀ tr ∈ (simulate bars events inverse sl tp bal mult).trades,
      (tr.result = ExitReason.TP → |tr.pnl| = tp * mult)
      ∧ (tr.result = ExitReason.SL → |tr.pnl| = sl * mult) := by
  intro tr htr
  have h := simulate_trades_pnl bars events inverse sl tp bal mult tr htr
  constructor
  · intro hr
    rw [hr] at h
    rw [h]
    exact abs_of_nonneg (mul_nonneg htp hm)
  · intro hr
    rw [hr] at h
    rw [h]
    rw [abs_neg]
    exact abs_of_nonneg (mul_nonneg hsl hm)

set_option maxRecDepth 4000 in
/-- Witness for `trades_pnl_magnitude`: the long trade exiting take-profit
that the simulator records for `longEvent` over `risingBars`. -/
theorem trades_pnl_magnitude_witness :
    (tradeTP50.result = ExitReason.TP → |tradeTP50.pnl| = 50 * 1)
    ∧ (tradeTP50.result = ExitReason.SL → |tradeTP50.pnl| = 50 * 1) :=
  trades_pnl_magnitude risingBars [longEvent] false 50 50 10000 1
    (by norm_num) (by norm_num) (by norm_num) tradeTP50
    (by with_unfolding_all decide)

/-- C9: with positive thresholds and multiplier, a recorded trade's pnl is
strictly positive exactly when its exit reason is `TP`, and strictly
negative exactly when its exit reason is `SL`. -/
theorem trades_pnl_sign (bars : List Bar) (events : List CrossoverEvent)
    (inverse : Bool) (sl tp bal mult : ℚ)
    (hsl : 0 < sl) (htp : 0 < tp) (hm : 0 < mult) :
    ∀ tr ∈ (simulate bars events inverse sl tp bal mult).trades,
      (0 < tr.pnl ↔ tr.result = ExitReason.TP)
      ∧ (tr.pnl < 0 ↔ tr.result = ExitReason.SL) := by
  intro tr htr
  have h := simulate_trades_pnl bars events inverse sl tp bal mult tr htr
  cases hr : tr.result with
  | TP =>
    rw [hr] at h
    have hpos : 0 < tr.pnl := by rw [h]; exact mul_pos htp hm
    exact ⟨⟨fun _ => rfl, fun _ => hpos⟩,
           ⟨fun hneg => absurd hpos (not_lt.mpr hneg.le), fun hc => nomatch hc⟩⟩
  | SL =>
    rw [hr] at h
    have hneg : tr.pnl < 0 := by rw [h]; exact neg_lt_zero.mpr (mul_pos hsl hm)
    exact ⟨⟨fun hpos => absurd hneg (not_lt.mpr hpos.le), fun hc => nomatch hc⟩,
           ⟨fun _ => rfl, fun _ => hneg⟩⟩

set_option maxRecDepth 4000 in
/-- Witness for `trades_pnl_sign`: the long trade exiting take-profit
that the simulator records for `longEvent` over `risingBars`. -/
theorem trades_pnl_sign_witness :
    (0 < tradeTP100.pnl ↔ tradeTP100.result = ExitReason.TP)
    ∧ (tradeTP100.pnl < 0 ↔ tradeTP100.result = ExitReason.SL) :=
  trades_pnl_sign risingBars [longEvent] false 50 100 10000 20
    (by norm_num) (by norm_num) (by norm_num) tradeTP100
    (by with_unfolding_all decide)

lemma swapReason_swap (r : ExitReason) : swapReason (swapReason r) = r := by
  cases r <;> rfl

lemma scanExit_swap (entry sl : ℚ) (hsl : 0 < sl) (q : Int) (hq : q ≠ 1) :
    ∀ bs : List Bar,
      scanExit entry q sl sl bs
        = (scanExit entry 1 sl sl bs).map fun x => (x.1, x.2.1, swapReason x.2.2) := by
  intro bs
  induction bs with
  | nil => rfl
  | cons b rest ih =>
    have e1 : (((1 : Int)) = 1) = True := eq_true rfl
    have e2 : ((q : Int) = 1) = False := eq_false hq
    simp only [scanExit, e1, e2, if_true, if_false]
    by_cases h1 : sl ≤ b.bclose - entry
    · have h2 : ¬ sl ≤ entry - b.bclose := by intro hc; linarith
      have h3 : entry - b.bclose ≤ -sl := by linarith
      rw [if_pos h1, if_neg h2, if_pos h3]
      rfl
    · by_cases h4 : b.bclose - entry ≤ -sl
      · have h5 : sl ≤ entry - b.bclose := by linarith
        rw [if_neg h1, if_pos h4, if_pos h5]
        rfl
      · have h6 : ¬ sl ≤ entry - b.bclose := by intro hc; linarith
        have h7 : ¬ entry - b.bclose ≤ -sl := by intro hc; linarith
        rw [if_neg h1, if_neg h4, if_neg h6, if_neg h7]
        exact ih

lemma tradeOf_inverse (bars : List Bar) (sl mult : ℚ) (hsl : 0 < sl)
    (e : CrossoverEvent) :
    tradeOf bars true sl sl mult e
      = (tradeOf bars false sl sl mult e).map flipTrade := by
  unfold tradeOf
  cases hlb : lookupBar bars e.entry_time with
  | none => rfl
  | some q =>
    obtain ⟨loc, b⟩ := q
    dsimp only
    cases hd : e.ctype with
    | long =>
      rw [show position true Dir.long = -1 from rfl,
          show position false Dir.long = 1 from rfl,
          scanExit_swap b.bopen sl hsl (-1) (by decide)]
      cases hse : scanExit b.bopen 1 sl sl (bars.drop (loc + 1)) with
      | none => rfl
      | some x =>
        obtain ⟨t, p, r⟩ := x
        simp only [Option.map_some']
        simp [flipTrade, flipDir, Trade.mk.injEq]
        all_goals ring
    | short =>
      rw [show position true Dir.short = 1 from rfl,
          show position false Dir.short = -1 from rfl,
          scanExit_swap b.bopen sl hsl (-1) (by decide)]
      cases hse : scanExit b.bopen 1 sl sl (bars.drop (loc + 1)) with
      | none => rfl
      | some x =>
        obtain ⟨t, p, r⟩ := x
        simp only [Option.map_some']
        simp [flipTrade, flipDir, swapReason_swap, Trade.mk.injEq]
        all_goals ring

lemma foldl_simStep_inverse (bars : List Bar) (sl mult : ℚ) (hsl : 0 < sl) :
    ∀ (events : List CrossoverEvent) (s s' : SimState),
      s'.trades = s.trades.map flipTrade →
      (events.foldl (simStep bars true sl sl mult) s').trades
        = ((events.foldl (simStep bars false sl sl mult) s).trades).map flipTrade := by
  intro events
  induction events with
  | nil => intro s s' h; exact h
  | cons e rest ih =>
    intro s s' h
    simp only [List.foldl_cons]
    refine ih _ _ ?_
    unfold simStep
    rw [tradeOf_inverse bars sl mult hsl e]
    cases hto : tradeOf bars false sl sl mult e with
    | none => exact h
    | some tr =>
      simp only [Option.map_some']
      rw [h, List.map_append]
      rfl

/-- C2 counterexample: with `stop_loss = 50` and `take_profit = 100` on a
single long event over `fallingBars`, the base run records one trade (a
stop-loss exit) while the inverse run records none: the runs do not
correspond trade for trade at all. -/
theorem simulate_inverse_counterexample :
    ((simulate fallingBars [longEvent] true 50 100 0 1).trades).length = 0
    ∧ ((simulate fallingBars [longEvent] false 50 100 0 1).trades).length = 1 := by
  constructor
  · with_unfolding_all decide
  · with_unfolding_all decide

/-- C2 amended: when `stop_loss_points = take_profit_points > 0`, the
inverse run yields trade for trade the trades of the base run with the
direction flipped, the pnl sign-inverted (and the exit reason swapped);
entry and exit times and prices are unchanged. -/
theorem simulate_inverse_flips (bars : List Bar) (events : List CrossoverEvent)
    (sl bal mult : ℚ) (hsl : 0 < sl) :
    (simulate bars events true sl sl bal mult).trades
      = ((simulate bars events false sl sl bal mult).trades).map flipTrade :=
  foldl_simStep_inverse bars sl mult hsl events ⟨bal, [], []⟩ ⟨bal, [], []⟩ (by simp)

/-- Witness for `simulate_inverse_flips` at `sl = tp = 50`. -/
theorem simulate_inverse_flips_witness :
    (simulate fallingBars [longEvent] true 50 50 0 1).trades
      = ((simulate fallingBars [longEvent] false 50 50 0 1).trades).map flipTrade :=
  simulate_inverse_flips fallingBars [longEvent] 50 0 1 (by norm_num)

set_option maxRecDepth 4000 in
lemma buildFrame_scenario : buildFrame scenarioBars 1 2 = scenarioRows := by
  with_unfolding_all decide

set_option maxRecDepth 4000 in
/-- C4 counterexample: on the spec's scenario input (closes 100, 105,
160, 103; fast SMA window 1, slow window 2; `sl = tp = 50`, multiplier 1)
the pipeline does not produce exactly one trade — it produces none.  The
only signal transition of the filtered frame sits at its last row, which
the detection loop excludes. -/
theorem scenario_counterexample :
    ¬ (pipeline scenarioBars 1 2 false 50 50 10000 1).trades.length = 1 := by
  show ¬ (simulate
      ((buildFrame scenarioBars 1 2).map fun r => ⟨r.ts, r.ropen, r.rclose⟩)
      (crossoversApp (buildFrame scenarioBars 1 2)) false 50 50 10000 1).trades.length = 1
  rw [buildFrame_scenario]
  have hc : crossoversApp scenarioRows = [] := by with_unfolding_all decide
  rw [hc]
  simp [simulate]

set_option maxRecDepth 4000 in
/-- C4 amended: on the scenario input the filtered frame is
`scenarioRows` (signals 1, 1, -1), crossover detection produces no event,
and the pipeline produces zero trades and an empty equity curve with the
balance unchanged. -/
theorem scenario_no_trade :
    buildFrame scenarioBars 1 2 = scenarioRows
    ∧ crossoversApp (buildFrame scenarioBars 1 2) = []
    ∧ pipeline scenarioBars 1 2 false 50 50 10000 1 = ⟨10000, [], []⟩ := by
  refine ⟨buildFrame_scenario, ?_, ?_⟩
  · rw [buildFrame_scenario]
    with_unfolding_all decide
  · show simulate
        ((buildFrame scenarioBars 1 2).map fun r => ⟨r.ts, r.ropen, r.rclose⟩)
        (crossoversApp (buildFrame scenarioBars 1 2)) false 50 50 10000 1
      = ⟨10000, [], []⟩
    rw [buildFrame_scenario]
    have hc : crossoversApp scenarioRows = [] := by with_unfolding_all decide
    rw [hc]
    rfl

lemma filter_map_eq_filterMap {α β : Type} (p : α → Bool) (f : α → β) (l : List α) :
    (l.filter p).map f = l.filterMap fun a => if p a then some (f a) else none := by
  induction l with
  | nil => rfl
  | cons a t ih =>
    by_cases h : p a
    · simp [List.filter_cons, h, ih]
    · simp [List.filter_cons, h, ih]

/-- C1: on every filtered frame of length `n`, the detection loop yields
an event exactly at those indices `i` with `1 ≤ i ≤ n - 2` where
`Signal[i-1] ≠ Signal[i]` and `Signal[i]` is Long (1) or Short (-1) — in
particular never at the first or last usable bar — and each event records
bar `i+1`'s timestamp and open as entry point and bar `i`'s close as
prior close (plus bar `i`'s moving-average values). -/
theorem crossoversApp_events (df : List Row) :
    crossoversApp df
      = ((List.range df.length).filter fun i =>
          decide (1 ≤ i ∧ i ≤ df.length - 2
            ∧ (df.getD (i - 1) rowDefault).signal ≠ (df.getD i rowDefault).signal
            ∧ ((df.getD i rowDefault).signal = 1 ∨ (df.getD i rowDefault).signal = -1))).map
        fun i =>
          ⟨(df.getD (i + 1) rowDefault).ts,
           (if (df.getD i rowDefault).signal = 1 then Dir.long else Dir.short),
           (df.getD i rowDefault).ma20, (df.getD i rowDefault).ma50,
           (df.getD (i + 1) rowDefault).ropen, (df.getD i rowDefault).rclose⟩ := by
  rw [filter_map_eq_filterMap]
  rcases df with - | ⟨a, - | ⟨b, t⟩⟩
  · rfl
  · rfl
  · have hlen : (a :: b :: t).length = t.length + 1 + 1 := by simp
    rw [List.range_eq_range', hlen, List.range'_succ, List.range'_concat,
        List.filterMap_cons_none, List.filterMap_append, List.filterMap_cons_none,
        List.filterMap_nil, List.append_nil]
    · refine List.filterMap_congr fun i hi => ?_
      rw [List.mem_range'_1] at hi
      obtain ⟨h1, h2⟩ := hi
      have hi0 : i - 1 < (a :: b :: t).length := by simp; omega
      have hi1 : i < (a :: b :: t).length := by simp; omega
      have hi2 : i + 1 < (a :: b :: t).length := by simp; omega
      rw [List.getElem?_eq_getElem hi0, List.getElem?_eq_getElem hi1,
          List.getElem?_eq_getElem hi2]
      rw [List.getD_eq_getElem _ _ hi0, List.getD_eq_getElem _ _ hi1,
          List.getD_eq_getElem _ _ hi2]
      dsimp only
      simp only [decide_eq_true_eq]
      refine if_congr ?_ rfl rfl
      constructor
      · rintro ⟨hne, hor⟩
        refine ⟨h1, ?_, hne, hor⟩
        omega
      · rintro ⟨-, -, hne, hor⟩
        exact ⟨hne, hor⟩
    · simp
    · simp

end NQBacktest
